import Mathlib

/-!
# Verification of `CRandomFourierGaussPreproc` (shogun random Fourier features)

Shallow embedding of `src/src/libshogun/preproc/RandomFourierGaussPreproc.h`.
The repository ships only the class header (declarations and doc comments);
the member-function bodies live outside the provided sources, so every
operation below is modelled from the specification's description of the
behaviour, staying faithful to the declared C++ signatures (flat coefficient
buffers, `int32_t` dimensions, `float64_t` scalars modelled as `ℝ`).

State-passing style: each mutating operation maps a state to a result
(`Except` for fallible calls) together with the successor state, so that
"no mutation on failure" and frame properties are expressible.
-/

namespace RFGP

/-- Error kinds of the mapper: `InvalidParameter` for non-positive dimensions
or kernel width, `InvalidState` for use before initialization, and
`DimensionMismatch` for an input vector of the wrong length. -/
inductive RFGError where
  | InvalidParameter
  | InvalidState
  | DimensionMismatch
deriving DecidableEq, Repr

/-- The mutable fields of `CRandomFourierGaussPreproc`:
kernel width, declared input dimension, the input dimension the stored
coefficients were generated for, declared feature dimension, the additive
(phase offset) coefficients and the multiplicative (frequency matrix)
coefficients. `int32_t` counters are modelled as `ℤ`, `float64_t` as `ℝ`. -/
structure RFGState where
  kernelwidth : ℝ
  dim_input_space : ℤ
  cur_dim_input_space : ℤ
  dim_feature_space : ℤ
  randomcoeff_additive : List ℝ
  randomcoeff_multiplicative : List (List ℝ)

/-- Modelled from the spec: the injectable random source of §6 — i.i.d.
uniform draws in `[0, 2π)` for phase offsets (indexed by output index) and
i.i.d. standard-normal draws for frequency entries (indexed by output and
input index). The missing `.cpp` routes sampling through the framework's
global RNG; here a source is passed explicitly so generation is a function. -/
structure RandomSource where
  uniform : ℕ → ℝ
  gauss : ℕ → ℕ → ℝ

/-- Modelled from the spec: `test_rfinited` / `isConsistentWith` — true iff
coefficients exist (the `cur_dim_input_space` sentinel is positive), the
stored coefficients match the declared input dimension, the declared feature
dimension is positive, and the stored phase-offset count equals the declared
feature dimension. The body is missing from the shipped sources. -/
def test_rfinited (s : RFGState) : Bool :=
  decide (0 < s.dim_feature_space) && decide (0 < s.cur_dim_input_space) &&
    decide (s.cur_dim_input_space = s.dim_input_space) &&
    decide ((s.randomcoeff_additive.length : ℤ) = s.dim_feature_space)

/-- Modelled from the spec: `set_kernelwidth` rejects a non-positive width
with `InvalidParameter` and otherwise stores it; the state is untouched on
failure. -/
noncomputable def set_kernelwidth (w : ℝ) (s : RFGState) :
    Except RFGError Unit × RFGState :=
  if w ≤ 0 then (.error .InvalidParameter, s)
  else (.ok (), { s with kernelwidth := w })

/-- Modelled from the spec: `set_dim_input_space` rejects a non-positive
dimension with `InvalidParameter` and otherwise stores it; the state is
untouched on failure. -/
def set_dim_input_space (d : ℤ) (s : RFGState) : Except RFGError Unit × RFGState :=
  if d ≤ 0 then (.error .InvalidParameter, s)
  else (.ok (), { s with dim_input_space := d })

/-- Modelled from the spec: `set_dim_feature_space` rejects a non-positive
dimension with `InvalidParameter` and otherwise stores it; the state is
untouched on failure. -/
def set_dim_feature_space (d : ℤ) (s : RFGState) : Except RFGError Unit × RFGState :=
  if d ≤ 0 then (.error .InvalidParameter, s)
  else (.ok (), { s with dim_feature_space := d })

/-- Modelled from the spec: the coefficient state produced by a successful
`generate` — `dim_feature_space` phase offsets drawn from the uniform source,
a `dim_feature_space × dim_input_space` frequency matrix of standard-normal
draws scaled by `1 / kernelwidth`, and `cur_dim_input_space` synchronized to
`dim_input_space`. -/
noncomputable def genState (rs : RandomSource) (s : RFGState) : RFGState :=
  { s with
    cur_dim_input_space := s.dim_input_space
    randomcoeff_additive :=
      (List.range s.dim_feature_space.toNat).map rs.uniform
    randomcoeff_multiplicative :=
      (List.range s.dim_feature_space.toNat).map (fun i =>
        (List.range s.dim_input_space.toNat).map (fun j =>
          rs.gauss i j / s.kernelwidth)) }

/-- Modelled from the spec: `init_randomcoefficients` / `ensureCoefficients` —
returns `false` without any change when `test_rfinited` already holds;
otherwise fails with `InvalidParameter` (state untouched) when a dimension or
the kernel width is non-positive, and otherwise replaces the coefficients
wholesale via `genState` and returns `true`. -/
noncomputable def init_randomcoefficients (rs : RandomSource) (s : RFGState) :
    Except RFGError Bool × RFGState :=
  if test_rfinited s then (.ok false, s)
  else if s.dim_input_space ≤ 0 ∨ s.dim_feature_space ≤ 0 ∨ s.kernelwidth ≤ 0 then
    (.error .InvalidParameter, s)
  else (.ok true, genState rs s)

/-- Dot product of two coefficient/input rows, as the C++ inner product over
the row entries. -/
def dotprod (a b : List ℝ) : ℝ :=
  (List.zipWith (fun x y => x * y) a b).sum

/-- Modelled from the spec: the output vector of `apply_to_feature_vector` —
entry `i` is `sqrt(2 / dim_feature_space) * cos(dot(frequencyRow i, x) +
phaseOffset i)`, for `i` ranging over the feature dimension. -/
noncomputable def rfmap (s : RFGState) (x : List ℝ) : List ℝ :=
  (List.range s.dim_feature_space.toNat).map (fun i =>
    Real.sqrt (2 / (s.dim_feature_space : ℝ)) *
      Real.cos (dotprod (s.randomcoeff_multiplicative.getD i []) x +
        s.randomcoeff_additive.getD i 0))

/-- Modelled from the spec: `apply_to_feature_vector` — fails with
`InvalidState` unless the mapper is Ready (`test_rfinited`), fails with
`DimensionMismatch` when the input length differs from
`cur_dim_input_space`, and otherwise returns the pure affine-cosine map
`rfmap`. The call is side-effect-free, so no successor state is returned. -/
noncomputable def apply_to_feature_vector (x : List ℝ) (s : RFGState) :
    Except RFGError (List ℝ) :=
  if test_rfinited s = false then .error .InvalidState
  else if (x.length : ℤ) ≠ s.cur_dim_input_space then .error .DimensionMismatch
  else .ok (rfmap s x)

/-- Row-by-row transform loop of `apply_to_feature_matrix`: apply `f` to each
row, propagating the first failure. -/
def mapRows (f : List ℝ → Except RFGError (List ℝ)) :
    List (List ℝ) → Except RFGError (List (List ℝ))
  | [] => .ok []
  | x :: xs =>
    match f x with
    | .error e => .error e
    | .ok y =>
      match mapRows f xs with
      | .error e => .error e
      | .ok ys => .ok (y :: ys)

/-- Modelled from the spec: `apply_to_feature_matrix` — calls
`init_randomcoefficients` once, then applies `apply_to_feature_vector`
independently to every row of the batch against the resulting state. -/
noncomputable def apply_to_feature_matrix (rs : RandomSource)
    (X : List (List ℝ)) (s : RFGState) :
    Except RFGError (List (List ℝ)) × RFGState :=
  match init_randomcoefficients rs s with
  | (.error e, s2) => (.error e, s2)
  | (.ok _, s2) =>
    match mapRows (fun x => apply_to_feature_vector x s2) X with
    | .error e => (.error e, s2)
    | .ok Y => (.ok Y, s2)

/-- Modelled from the spec: `get_randomcoefficients` — a `const` observer
returning deep copies of the phase offsets, the frequency matrix as the flat
row-major buffer of the declared C++ signature, the feature dimension, and
the input dimension the stored coefficients were generated for. -/
def get_randomcoefficients (s : RFGState) :
    (List ℝ × List ℝ × ℤ × ℤ) × RFGState :=
  ((s.randomcoeff_additive, s.randomcoeff_multiplicative.flatten,
    s.dim_feature_space, s.cur_dim_input_space), s)

/-- Modelled from the spec: `set_randomcoefficients` — installs externally
supplied coefficients, reading `dim_feature_space2` phase offsets and a
`dim_feature_space2 × dim_input_space2` row-major frequency matrix from the
flat buffers of the declared C++ signature, and synchronizes all three
dimension counters to the supplied values. Performs no validation. -/
def set_randomcoefficients (add mult : List ℝ) (dimf dimi : ℤ)
    (s : RFGState) : RFGState :=
  { s with
    dim_feature_space := dimf
    dim_input_space := dimi
    cur_dim_input_space := dimi
    randomcoeff_additive :=
      (List.range dimf.toNat).map (fun i => add.getD i 0)
    randomcoeff_multiplicative :=
      (List.range dimf.toNat).map (fun i =>
        (List.range dimi.toNat).map (fun j =>
          mult.getD (i * dimi.toNat + j) 0)) }

/-- Modelled from the spec: `get_kernelwidth` — a `const` observer that fails
with `InvalidState` when the stored width is non-positive (never validly
set) and otherwise returns it. -/
noncomputable def get_kernelwidth (s : RFGState) : Except RFGError ℝ × RFGState :=
  (if s.kernelwidth ≤ 0 then .error .InvalidState else .ok s.kernelwidth, s)

/-- `get_dim_input_space`, a `const` observer returning the declared input
dimension. -/
def get_dim_input_space (s : RFGState) : ℤ × RFGState :=
  (s.dim_input_space, s)

/-- `get_dim_feature_space`, a `const` observer returning the declared
feature dimension. -/
def get_dim_feature_space (s : RFGState) : ℤ × RFGState :=
  (s.dim_feature_space, s)

/-- The `const` member call `test_rfinited` in state-passing form. -/
def test_rfinited_obs (s : RFGState) : Bool × RFGState :=
  (test_rfinited s, s)

/-- Structural well-formedness of the stored coefficients: the frequency
matrix has as many rows as there are phase offsets, and every row has
`cur_dim_input_space` entries. Every state the operations produce
satisfies it. -/
def coeff_inv (s : RFGState) : Prop :=
  s.randomcoeff_multiplicative.length = s.randomcoeff_additive.length ∧
    ∀ r ∈ s.randomcoeff_multiplicative, r.length = s.cur_dim_input_space.toNat

/-- The concrete scenario of the spec: input dimension 2, feature dimension
4, kernel width 1, zero phase offsets and frequency matrix
`[[1,0],[0,1],[1,1],[1,-1]]`. -/
noncomputable def sC1 : RFGState :=
  { kernelwidth := 1
    dim_input_space := 2
    cur_dim_input_space := 2
    dim_feature_space := 4
    randomcoeff_additive := [0, 0, 0, 0]
    randomcoeff_multiplicative := [[1, 0], [0, 1], [1, 1], [1, -1]] }

/-- A deterministic all-zero random source, for concrete witnesses. -/
def rsZ : RandomSource :=
  { uniform := fun _ => 0, gauss := fun _ _ => 0 }

/-- A scratch mapper state with junk configuration, used as the target of
cross-instance coefficient transfer in witnesses. -/
noncomputable def sJunk : RFGState :=
  { kernelwidth := 7
    dim_input_space := -1
    cur_dim_input_space := -1
    dim_feature_space := -1
    randomcoeff_additive := []
    randomcoeff_multiplicative := [] }

/-- A freshly configured mapper: dimensions and width set, no coefficients
yet (`cur_dim_input_space` still the sentinel). -/
noncomputable def s0 : RFGState :=
  { kernelwidth := 1
    dim_input_space := 2
    cur_dim_input_space := -1
    dim_feature_space := 3
    randomcoeff_additive := []
    randomcoeff_multiplicative := [] }

/-- A completely unconfigured mapper: negative sentinels everywhere and a
non-positive kernel width. -/
noncomputable def sNoWidth : RFGState :=
  { kernelwidth := -1
    dim_input_space := -1
    cur_dim_input_space := -1
    dim_feature_space := -1
    randomcoeff_additive := []
    randomcoeff_multiplicative := [] }

/-- A mapper whose coefficients were installed externally through
`set_randomcoefficients` while the kernel width was never validly set:
two phase offsets and a 2×2 frequency matrix for input dimension 2. -/
noncomputable def sBad : RFGState :=
  set_randomcoefficients [0, 0] [0, 0, 0, 0] 2 2 sNoWidth

/- ### Helper lemmas -/

theorem test_rfinited_eq_true_iff (s : RFGState) :
    test_rfinited s = true ↔
      0 < s.dim_feature_space ∧ 0 < s.cur_dim_input_space ∧
        s.cur_dim_input_space = s.dim_input_space ∧
        (s.randomcoeff_additive.length : ℤ) = s.dim_feature_space := by
  simp [test_rfinited, and_assoc]

theorem range_map_getD {α : Type} (l : List α) (d : α) :
    (List.range l.length).map (fun i => l.getD i d) = l := by
  induction l with
  | nil => simp
  | cons a t ih =>
    rw [List.length_cons, List.range_succ_eq_map, List.map_cons, List.map_map]
    simp only [Function.comp_def, List.getD_cons_zero, List.getD_cons_succ]
    rw [ih]

theorem flatten_getD {α : Type} (M : List (List α)) (c : ℕ)
    (hc : ∀ r ∈ M, r.length = c) (i j : ℕ) (hi : i < M.length) (hj : j < c)
    (d : α) :
    M.flatten.getD (i * c + j) d = (M.getD i []).getD j d := by
  induction M generalizing i with
  | nil => simp at hi
  | cons r t ih =>
    have hr : r.length = c := hc r (by simp)
    cases i with
    | zero =>
      simp only [List.flatten_cons, List.getD_cons_zero, Nat.zero_mul,
        Nat.zero_add]
      exact List.getD_append _ _ _ _ (by omega)
    | succ n =>
      have harith : (n + 1) * c + j = r.length + (n * c + j) := by
        rw [hr]; ring
      rw [List.flatten_cons, harith,
        List.getD_append_right _ _ _ _ (by omega), List.getD_cons_succ,
        Nat.add_sub_cancel_left]
      exact ih (fun u hu => hc u (by simp [hu])) n (by simpa using hi)

theorem reshape_flatten {α : Type} (M : List (List α)) (c : ℕ) (d : α)
    (hc : ∀ r ∈ M, r.length = c) :
    (List.range M.length).map (fun i =>
      (List.range c).map (fun j => M.flatten.getD (i * c + j) d)) = M := by
  apply List.ext_getElem (by simp)
  intro i h1 h2
  rw [List.getElem_map, List.getElem_range]
  have hrow : M[i].length = c := hc M[i] (List.getElem_mem h2)
  have hMi : M.getD i [] = M[i] := List.getD_eq_getElem M [] h2
  calc (List.range c).map (fun j => M.flatten.getD (i * c + j) d)
      = (List.range c).map (fun j => (M.getD i []).getD j d) :=
        List.map_congr_left (fun j hj =>
          flatten_getD M c hc i j h2 (List.mem_range.mp hj) d)
    _ = M[i] := by rw [hMi, ← hrow, range_map_getD]

theorem rfmap_length (s : RFGState) (x : List ℝ) :
    (rfmap s x).length = s.dim_feature_space.toNat := by
  simp [rfmap]

theorem apply_to_feature_vector_ok (s : RFGState) (x : List ℝ)
    (hr : test_rfinited s = true)
    (hl : (x.length : ℤ) = s.cur_dim_input_space) :
    apply_to_feature_vector x s = .ok (rfmap s x) := by
  simp [apply_to_feature_vector, hr, hl]

theorem apply_to_feature_vector_ok_inv (s : RFGState) (x y : List ℝ)
    (h : apply_to_feature_vector x s = .ok y) :
    test_rfinited s = true ∧ (x.length : ℤ) = s.cur_dim_input_space ∧
      y = rfmap s x := by
  unfold apply_to_feature_vector at h
  by_cases hr : test_rfinited s = false
  · simp [hr] at h
  · have hr' : test_rfinited s = true := by simpa using hr
    by_cases hl : (x.length : ℤ) = s.cur_dim_input_space
    · refine ⟨hr', hl, ?_⟩
      simp [hr', hl] at h
      exact h.symm
    · simp [hr', hl] at h

theorem test_rfinited_genState (rs : RandomSource) (s : RFGState)
    (hi : 0 < s.dim_input_space) (hf : 0 < s.dim_feature_space) :
    test_rfinited (genState rs s) = true := by
  rw [test_rfinited_eq_true_iff]
  refine ⟨hf, hi, rfl, ?_⟩
  simp [genState, Int.toNat_of_nonneg (le_of_lt hf)]

theorem init_randomcoefficients_of_rfinited (rs : RandomSource)
    (s : RFGState) (h : test_rfinited s = true) :
    init_randomcoefficients rs s = (.ok false, s) := by
  simp [init_randomcoefficients, h]

theorem init_randomcoefficients_ok_inv (rs : RandomSource) (s : RFGState)
    (b : Bool) (s1 : RFGState)
    (h : init_randomcoefficients rs s = (.ok b, s1)) :
    (test_rfinited s = true ∧ b = false ∧ s1 = s) ∨
      (test_rfinited s = false ∧ 0 < s.dim_input_space ∧
        0 < s.dim_feature_space ∧ 0 < s.kernelwidth ∧ b = true ∧
        s1 = genState rs s) := by
  unfold init_randomcoefficients at h
  by_cases hr : test_rfinited s
  · left
    simp [hr] at h
    exact ⟨hr, h.1, h.2.symm⟩
  · right
    rw [if_neg hr] at h
    by_cases hbad : s.dim_input_space ≤ 0 ∨ s.dim_feature_space ≤ 0 ∨
      s.kernelwidth ≤ 0
    · simp [hbad] at h
    · push_neg at hbad
      rw [if_neg (by push_neg; exact hbad)] at h
      simp at h
      exact ⟨by simpa using hr, hbad.1, hbad.2.1, hbad.2.2, h.1, h.2.symm⟩

theorem init_randomcoefficients_ok_rfinited (rs : RandomSource)
    (s : RFGState) (b : Bool) (s1 : RFGState)
    (h : init_randomcoefficients rs s = (.ok b, s1)) :
    test_rfinited s1 = true := by
  rcases init_randomcoefficients_ok_inv rs s b s1 h with
    ⟨hr, _, rfl⟩ | ⟨_, hi, hf, _, _, rfl⟩
  · exact hr
  · exact test_rfinited_genState rs s hi hf

theorem mapRows_ok_inv (f : List ℝ → Except RFGError (List ℝ))
    (X Y : List (List ℝ)) (h : mapRows f X = .ok Y) :
    Y.length = X.length ∧
      ∀ i, i < X.length → f (X.getD i []) = .ok (Y.getD i []) := by
  induction X generalizing Y with
  | nil =>
    simp [mapRows] at h
    subst h
    simp
  | cons x xs ih =>
    unfold mapRows at h
    cases hfx : f x with
    | error e => rw [hfx] at h; simp at h
    | ok y =>
      rw [hfx] at h
      cases hrec : mapRows f xs with
      | error e => rw [hrec] at h; simp at h
      | ok ys =>
        rw [hrec] at h
        simp at h
        subst h
        obtain ⟨hlen, hall⟩ := ih ys hrec
        refine ⟨by simp [hlen], ?_⟩
        intro i hi
        cases i with
        | zero => simpa using hfx
        | succ n => simpa using hall n (by simpa using hi)

theorem coeff_inv_sC1 : coeff_inv sC1 := by
  constructor
  · rfl
  · intro r hr
    simp [sC1] at hr
    rcases hr with rfl | rfl | rfl | rfl <;> rfl

theorem apply_to_feature_vector_congr (s t : RFGState) (x : List ℝ)
    (h1 : s.cur_dim_input_space = t.cur_dim_input_space)
    (h2 : s.dim_input_space = t.dim_input_space)
    (h3 : s.dim_feature_space = t.dim_feature_space)
    (h4 : s.randomcoeff_additive = t.randomcoeff_additive)
    (h5 : s.randomcoeff_multiplicative = t.randomcoeff_multiplicative) :
    apply_to_feature_vector x s = apply_to_feature_vector x t := by
  unfold apply_to_feature_vector test_rfinited rfmap
  rw [h1, h2, h3, h4, h5]

theorem coeff_inv_genState (rs : RandomSource) (s : RFGState) :
    coeff_inv (genState rs s) := by
  constructor
  · simp [genState]
  · intro r hr
    simp [genState] at hr
    obtain ⟨i, hi, rfl⟩ := hr
    simp [genState]

theorem coeff_inv_init (rs : RandomSource) (s : RFGState)
    (h : coeff_inv s) :
    coeff_inv (init_randomcoefficients rs s).2 := by
  unfold init_randomcoefficients
  by_cases hr : test_rfinited s = true
  · simpa [hr]
  · rw [if_neg (by simpa using hr)]
    by_cases hbad : s.dim_input_space ≤ 0 ∨ s.dim_feature_space ≤ 0 ∨
      s.kernelwidth ≤ 0
    · simpa [hbad]
    · rw [if_neg hbad]
      exact coeff_inv_genState rs s

theorem coeff_inv_setcoeffs (add mult : List ℝ) (dimf dimi : ℤ)
    (s : RFGState) :
    coeff_inv (set_randomcoefficients add mult dimf dimi s) := by
  constructor
  · simp [set_randomcoefficients]
  · intro r hr
    simp [set_randomcoefficients] at hr
    obtain ⟨i, hi, rfl⟩ := hr
    simp [set_randomcoefficients]

theorem apply_matrix_state (rs : RandomSource) (X : List (List ℝ))
    (s : RFGState) :
    (apply_to_feature_matrix rs X s).2 = (init_randomcoefficients rs s).2 := by
  unfold apply_to_feature_matrix
  rcases hinit : init_randomcoefficients rs s with ⟨r, s2⟩
  cases r with
  | error e => simp
  | ok b =>
    cases hm : mapRows (fun x => apply_to_feature_vector x s2) X <;> simp [hm]

/- ### Claims -/

/-- C1: on a Ready mapper, `apply_to_feature_vector` applied to an input of
length `cur_dim_input_space` returns a vector of length `dim_feature_space`
whose entry `i` is `sqrt(2 / dim_feature_space) * cos(dot(frequencyRow i, x)
+ phaseOffset i)`; on the concrete scenario (input dim 2, feature dim 4,
kernel width 1, zero offsets, frequency matrix `[[1,0],[0,1],[1,1],[1,-1]]`)
the input `[0,0]` maps to four entries all equal to `sqrt 0.5`. -/
theorem C1_transform_formula :
    (∀ (s : RFGState) (x : List ℝ), test_rfinited s = true →
      (x.length : ℤ) = s.cur_dim_input_space →
      ∃ y, apply_to_feature_vector x s = .ok y ∧
        y.length = s.dim_feature_space.toNat ∧
        ∀ i, i < y.length → y.getD i 0 =
          Real.sqrt (2 / (s.dim_feature_space : ℝ)) *
            Real.cos (dotprod (s.randomcoeff_multiplicative.getD i []) x +
              s.randomcoeff_additive.getD i 0)) ∧
    apply_to_feature_vector [0, 0] sC1 =
      .ok (List.replicate 4 (Real.sqrt 0.5)) := by
  constructor
  · intro s x hr hl
    refine ⟨rfmap s x, apply_to_feature_vector_ok s x hr hl,
      rfmap_length s x, ?_⟩
    intro i hi
    unfold rfmap at hi ⊢
    rw [List.getD_eq_getElem _ _ hi, List.getElem_map, List.getElem_range]
  · rw [apply_to_feature_vector_ok sC1 [0, 0] (by rfl) (by norm_num [sC1])]
    have h4 : ((4 : ℤ)).toNat = 4 := rfl
    norm_num [rfmap, sC1, dotprod, h4, List.range_succ, List.replicate]

/-- Witness for C1: the general formula evaluated at the concrete scenario
state and input `[0,0]` yields a 4-entry output. -/
theorem C1_transform_formula_witness :
    ∃ y, apply_to_feature_vector [0, 0] sC1 = .ok y ∧ y.length = 4 := by
  obtain ⟨y, h1, h2, _⟩ :=
    C1_transform_formula.1 sC1 [0, 0] (by rfl) (by norm_num [sC1])
  exact ⟨y, h1, by rw [h2]; rfl⟩

/-- C3: once `init_randomcoefficients` has returned successfully, a second
call (with the dimensions unchanged in between) returns `false` and leaves
the state — in particular the stored phase offsets and frequency matrix —
unchanged. -/
theorem C3_idempotent_regeneration (rs rs' : RandomSource)
    (s s1 : RFGState) (b : Bool)
    (h : init_randomcoefficients rs s = (.ok b, s1)) :
    init_randomcoefficients rs' s1 = (.ok false, s1) :=
  init_randomcoefficients_of_rfinited rs' s1
    (init_randomcoefficients_ok_rfinited rs s b s1 h)

/-- Witness for C3: a concrete first generation from a configured state,
followed by the second call returning `false` on the very same state. -/
theorem C3_idempotent_regeneration_witness :
    init_randomcoefficients rsZ (genState rsZ s0) =
      (.ok false, genState rsZ s0) := by
  have h1 : init_randomcoefficients rsZ s0 = (.ok true, genState rsZ s0) := by
    norm_num [init_randomcoefficients, test_rfinited, s0]
  exact C3_idempotent_regeneration rsZ rsZ s0 (genState rsZ s0) true h1

/-- C5: on a Ready mapper, `apply_to_feature_vector` fails with
`DimensionMismatch` exactly when the input length differs from
`cur_dim_input_space`, and with the correct length returns exactly
`get_dim_feature_space` entries. -/
theorem C5_dimension_contract (s : RFGState) (x : List ℝ)
    (hr : test_rfinited s = true) :
    ((x.length : ℤ) ≠ s.cur_dim_input_space →
      apply_to_feature_vector x s = .error .DimensionMismatch) ∧
    ((x.length : ℤ) = s.cur_dim_input_space →
      ∃ y, apply_to_feature_vector x s = .ok y ∧
        (y.length : ℤ) = (get_dim_feature_space s).1) := by
  constructor
  · intro hne
    simp [apply_to_feature_vector, hr, hne]
  · intro hl
    refine ⟨rfmap s x, apply_to_feature_vector_ok s x hr hl, ?_⟩
    rw [rfmap_length]
    have hf : 0 < s.dim_feature_space := ((test_rfinited_eq_true_iff s).1 hr).1
    simp [get_dim_feature_space, Int.toNat_of_nonneg (le_of_lt hf)]

/-- Witness for C5: on the concrete Ready state, a length-1 input is
rejected with `DimensionMismatch` and a length-2 input produces
`get_dim_feature_space` entries. -/
theorem C5_dimension_contract_witness :
    apply_to_feature_vector [0] sC1 = .error .DimensionMismatch ∧
      ∃ y, apply_to_feature_vector [0, 0] sC1 = .ok y ∧
        (y.length : ℤ) = (get_dim_feature_space sC1).1 := by
  exact ⟨(C5_dimension_contract sC1 [0] (by rfl)).1 (by norm_num [sC1]),
    (C5_dimension_contract sC1 [0, 0] (by rfl)).2 (by norm_num [sC1])⟩

/-- C7: the setters reject `0` and negative arguments with
`InvalidParameter`, and each failed call returns the prior state
unchanged. -/
theorem C7_boundary_rejection (s : RFGState) :
    set_dim_input_space 0 s = (.error .InvalidParameter, s) ∧
      set_dim_input_space (-5) s = (.error .InvalidParameter, s) ∧
      set_kernelwidth 0 s = (.error .InvalidParameter, s) ∧
      set_kernelwidth (-1) s = (.error .InvalidParameter, s) := by
  refine ⟨?_, ?_, ?_, ?_⟩ <;>
    norm_num [set_dim_input_space, set_kernelwidth]

/-- C8: when regeneration is triggered (`test_rfinited` is false) and a
dimension or the kernel width is non-positive, `init_randomcoefficients`
fails with `InvalidParameter` and replaces nothing: the state is returned
unchanged. -/
theorem C8_generate_rejects (rs : RandomSource) (s : RFGState)
    (hnr : test_rfinited s = false)
    (hbad : s.dim_input_space ≤ 0 ∨ s.dim_feature_space ≤ 0 ∨
      s.kernelwidth ≤ 0) :
    init_randomcoefficients rs s = (.error .InvalidParameter, s) := by
  unfold init_randomcoefficients
  rw [hnr]
  simp only [Bool.false_eq_true, if_false]
  rw [if_pos hbad]

/-- Witness for C8: the unconfigured state (all sentinels negative) is
rejected with `InvalidParameter` and left unchanged. -/
theorem C8_generate_rejects_witness :
    init_randomcoefficients rsZ sNoWidth =
      (.error .InvalidParameter, sNoWidth) :=
  C8_generate_rejects rsZ sNoWidth (by rfl) (by norm_num [sNoWidth])

/-- C10: every observer (`test_rfinited`, `get_randomcoefficients`,
`get_kernelwidth`, `get_dim_input_space`, `get_dim_feature_space`) returns
the state unchanged, and two consecutive calls to the same observer return
equal results. -/
theorem C10_observers_pure (s : RFGState) :
    ((test_rfinited_obs s).2 = s ∧ (get_randomcoefficients s).2 = s ∧
      (get_kernelwidth s).2 = s ∧ (get_dim_input_space s).2 = s ∧
      (get_dim_feature_space s).2 = s) ∧
    ((test_rfinited_obs (test_rfinited_obs s).2).1 =
        (test_rfinited_obs s).1 ∧
      (get_randomcoefficients (get_randomcoefficients s).2).1 =
        (get_randomcoefficients s).1 ∧
      (get_kernelwidth (get_kernelwidth s).2).1 = (get_kernelwidth s).1 ∧
      (get_dim_input_space (get_dim_input_space s).2).1 =
        (get_dim_input_space s).1 ∧
      (get_dim_feature_space (get_dim_feature_space s).2).1 =
        (get_dim_feature_space s).1) :=
  ⟨⟨rfl, rfl, rfl, rfl, rfl⟩, ⟨rfl, rfl, rfl, rfl, rfl⟩⟩

/-- C2: whenever `apply_to_feature_matrix` succeeds, its successor state is
the one produced by the single `init_randomcoefficients` call, the output
has the same row count as the input, row `i` of the output is exactly
`apply_to_feature_vector` of row `i` of the input against that state, and
every output row has `dim_feature_space` entries. -/
theorem C2_matrix_refines_vector (rs : RandomSource) (X Y : List (List ℝ))
    (s s' : RFGState)
    (h : apply_to_feature_matrix rs X s = (.ok Y, s')) :
    (∃ b, init_randomcoefficients rs s = (.ok b, s')) ∧
      Y.length = X.length ∧
      (∀ i, i < X.length →
        apply_to_feature_vector (X.getD i []) s' = .ok (Y.getD i [])) ∧
      ∀ y ∈ Y, y.length = s'.dim_feature_space.toNat := by
  unfold apply_to_feature_matrix at h
  rcases hinit : init_randomcoefficients rs s with ⟨r, s2⟩
  rw [hinit] at h
  cases r with
  | error e => simp at h
  | ok b =>
    dsimp only at h
    cases hm : mapRows (fun x => apply_to_feature_vector x s2) X with
    | error e => rw [hm] at h; simp at h
    | ok Y0 =>
      rw [hm] at h
      simp at h
      obtain ⟨hY, hs⟩ := h
      subst hY
      subst hs
      obtain ⟨hlen, hall⟩ := mapRows_ok_inv _ X Y0 hm
      refine ⟨⟨b, rfl⟩, hlen, hall, ?_⟩
      intro y hy
      obtain ⟨i, hi, rfl⟩ := List.mem_iff_getElem.mp hy
      have hi' : i < X.length := by omega
      have hrow := hall i hi'
      rw [List.getD_eq_getElem Y0 [] hi] at hrow
      obtain ⟨_, _, hy2⟩ :=
        apply_to_feature_vector_ok_inv s2 (X.getD i []) Y0[i] hrow
      rw [hy2, rfmap_length]

/-- Witness for C2: a concrete one-row batch on the Ready concrete state,
with the consequences of the theorem instantiated on it. -/
theorem C2_matrix_refines_vector_witness :
    apply_to_feature_matrix rsZ [[0, 0]] sC1 =
        (.ok [rfmap sC1 [0, 0]], sC1) ∧
      apply_to_feature_vector [0, 0] sC1 = .ok (rfmap sC1 [0, 0]) := by
  have hvec : apply_to_feature_vector [0, 0] sC1 = .ok (rfmap sC1 [0, 0]) :=
    apply_to_feature_vector_ok sC1 [0, 0] (by rfl) (by norm_num [sC1])
  have hmat : apply_to_feature_matrix rsZ [[0, 0]] sC1 =
      (.ok [rfmap sC1 [0, 0]], sC1) := by
    unfold apply_to_feature_matrix
    rw [init_randomcoefficients_of_rfinited rsZ sC1 (by rfl)]
    dsimp only
    unfold mapRows
    rw [hvec]
    rfl
  have hcons := C2_matrix_refines_vector rsZ [[0, 0]] [rfmap sC1 [0, 0]]
    sC1 sC1 hmat
  exact ⟨hmat, by simpa using hcons.2.2.1 0 (by norm_num)⟩

/-- C4: if mapper `A` is Ready with well-formed coefficient buffers, then
installing `A`'s exported coefficients into any mapper `B` via
`set_randomcoefficients ∘ get_randomcoefficients` makes the transform of
`B` agree exactly with the transform of `A` on every input. -/
theorem C4_cross_instance_reuse (A B : RFGState) (x : List ℝ)
    (hr : test_rfinited A = true) (hinv : coeff_inv A) :
    apply_to_feature_vector x
        (set_randomcoefficients (get_randomcoefficients A).1.1
          (get_randomcoefficients A).1.2.1
          (get_randomcoefficients A).1.2.2.1
          (get_randomcoefficients A).1.2.2.2 B) =
      apply_to_feature_vector x A := by
  obtain ⟨hf, hc, hcd, hlen⟩ := (test_rfinited_eq_true_iff A).1 hr
  obtain ⟨hrows, hrect⟩ := hinv
  have hlenN : A.randomcoeff_additive.length = A.dim_feature_space.toNat := by
    omega
  apply apply_to_feature_vector_congr
  · simp [set_randomcoefficients, get_randomcoefficients, hcd]
  · simp [set_randomcoefficients, get_randomcoefficients, hcd]
  · simp [set_randomcoefficients, get_randomcoefficients]
  · show (List.range (A.dim_feature_space.toNat)).map
        (fun i => A.randomcoeff_additive.getD i 0) = _
    rw [← hlenN, range_map_getD]
  · show (List.range (A.dim_feature_space.toNat)).map
        (fun i => (List.range (A.cur_dim_input_space.toNat)).map
          (fun j => A.randomcoeff_multiplicative.flatten.getD
            (i * A.cur_dim_input_space.toNat + j) 0)) = _
    rw [← hlenN, ← hrows, reshape_flatten _ _ _ hrect]

/-- Witness for C4: transferring the concrete scenario's coefficients into
a junk-configured mapper reproduces its transform on `[0,0]`. -/
theorem C4_cross_instance_reuse_witness :
    apply_to_feature_vector [0, 0]
        (set_randomcoefficients (get_randomcoefficients sC1).1.1
          (get_randomcoefficients sC1).1.2.1
          (get_randomcoefficients sC1).1.2.2.1
          (get_randomcoefficients sC1).1.2.2.2 sJunk) =
      apply_to_feature_vector [0, 0] sC1 :=
  C4_cross_instance_reuse sC1 sJunk [0, 0] (by rfl) coeff_inv_sC1

/-- C6 counterexample: a mapper whose coefficients were installed externally
(`set_randomcoefficients`, which performs no validation) while the kernel
width was never validly set. The first `init_randomcoefficients` call
succeeds (returns `false`), changing the feature dimension to a different
positive value succeeds, but the second `init_randomcoefficients` call then
fails with `InvalidParameter` instead of returning `true`. -/
theorem C6_staleness_cex :
    init_randomcoefficients rsZ sBad = (.ok false, sBad) ∧
      (set_dim_feature_space 3 sBad).1 = .ok () ∧
      init_randomcoefficients rsZ (set_dim_feature_space 3 sBad).2 =
        (.error .InvalidParameter, (set_dim_feature_space 3 sBad).2) := by
  refine ⟨init_randomcoefficients_of_rfinited rsZ sBad (by rfl), ?_, ?_⟩
  · norm_num [set_dim_feature_space]
  · have hnr : test_rfinited (set_dim_feature_space 3 sBad).2 = false := by
      norm_num [set_dim_feature_space, test_rfinited, sBad, sNoWidth,
        set_randomcoefficients]
    have hbad : (set_dim_feature_space 3 sBad).2.dim_input_space ≤ 0 ∨
        (set_dim_feature_space 3 sBad).2.dim_feature_space ≤ 0 ∨
        (set_dim_feature_space 3 sBad).2.kernelwidth ≤ 0 := by
      right; right
      norm_num [set_dim_feature_space, sBad, sNoWidth,
        set_randomcoefficients]
    unfold init_randomcoefficients
    rw [hnr]
    simp only [Bool.false_eq_true, if_false]
    rw [if_pos hbad]

/-- C6 (amended): after a successful `init_randomcoefficients` call, and
provided the stored kernel width is positive (automatic whenever that call
actually generated the coefficients), changing the feature dimension to a
different positive value and calling `init_randomcoefficients` again
returns `true` and produces phase offsets whose count equals the new
feature dimension. -/
theorem C6_staleness_detection (rs rs' : RandomSource) (s s1 : RFGState)
    (b : Bool) (d2 : ℤ)
    (h : init_randomcoefficients rs s = (.ok b, s1))
    (hw : 0 < s1.kernelwidth) (hd : 0 < d2)
    (hne : d2 ≠ s1.dim_feature_space) :
    (set_dim_feature_space d2 s1).1 = .ok () ∧
      ∃ s3, init_randomcoefficients rs'
          (set_dim_feature_space d2 s1).2 = (.ok true, s3) ∧
        (s3.randomcoeff_additive.length : ℤ) = d2 := by
  have hr1 := init_randomcoefficients_ok_rfinited rs s b s1 h
  obtain ⟨hf1, hc1, hcd1, hlen1⟩ := (test_rfinited_eq_true_iff s1).1 hr1
  have hset : set_dim_feature_space d2 s1 =
      (.ok (), { s1 with dim_feature_space := d2 }) := by
    simp [set_dim_feature_space, not_le.mpr hd]
  refine ⟨by rw [hset], ?_⟩
  rw [hset]
  have hr2 : test_rfinited { s1 with dim_feature_space := d2 } = false := by
    rw [Bool.eq_false_iff]
    intro htrue
    obtain ⟨_, _, _, h4⟩ :=
      (test_rfinited_eq_true_iff { s1 with dim_feature_space := d2 }).1 htrue
    have h4' : (s1.randomcoeff_additive.length : ℤ) = d2 := by simpa using h4
    omega
  have hcond : ¬ ({ s1 with dim_feature_space := d2 }.dim_input_space ≤ 0 ∨
      { s1 with dim_feature_space := d2 }.dim_feature_space ≤ 0 ∨
      { s1 with dim_feature_space := d2 }.kernelwidth ≤ 0) := by
    push_neg
    refine ⟨?_, ?_, ?_⟩
    · show 0 < s1.dim_input_space
      omega
    · exact hd
    · exact hw
  refine ⟨genState rs' { s1 with dim_feature_space := d2 }, ?_, ?_⟩
  · unfold init_randomcoefficients
    rw [hr2]
    simp only [Bool.false_eq_true, if_false]
    rw [if_neg hcond]
  · simp [genState, Int.toNat_of_nonneg hd.le]

/-- Witness for the amended C6: a concrete generation from a configured
state, then a feature-dimension change to 5 and a regeneration yielding 5
phase offsets. -/
theorem C6_staleness_detection_witness :
    (set_dim_feature_space 5 (genState rsZ s0)).1 = .ok () ∧
      ∃ s3, init_randomcoefficients rsZ
          (set_dim_feature_space 5 (genState rsZ s0)).2 = (.ok true, s3) ∧
        (s3.randomcoeff_additive.length : ℤ) = 5 := by
  have h1 : init_randomcoefficients rsZ s0 = (.ok true, genState rsZ s0) := by
    norm_num [init_randomcoefficients, test_rfinited, s0]
  exact C6_staleness_detection rsZ rsZ s0 (genState rsZ s0) true 5 h1
    (by norm_num [genState, s0]) (by norm_num) (by norm_num [genState, s0])

/-- C9: the coefficient shape invariant (`coeff_inv`) is preserved by every
operation of the mapper, and on any Ready state (`test_rfinited` true) it
yields the claimed shapes: the phase-offset count and the frequency-matrix
row count both equal `dim_feature_space`, and every frequency row has
`cur_dim_input_space` entries. -/
theorem C9_shape_invariant (s : RFGState) (rs : RandomSource) (w : ℝ)
    (d1 d2 dimf dimi : ℤ) (add mult : List ℝ) (X : List (List ℝ))
    (h : coeff_inv s) :
    coeff_inv (set_kernelwidth w s).2 ∧
      coeff_inv (set_dim_input_space d1 s).2 ∧
      coeff_inv (set_dim_feature_space d2 s).2 ∧
      coeff_inv (init_randomcoefficients rs s).2 ∧
      coeff_inv (set_randomcoefficients add mult dimf dimi s) ∧
      coeff_inv (apply_to_feature_matrix rs X s).2 ∧
      coeff_inv (get_randomcoefficients s).2 ∧
      coeff_inv (get_kernelwidth s).2 ∧
      coeff_inv (get_dim_input_space s).2 ∧
      coeff_inv (get_dim_feature_space s).2 ∧
      coeff_inv (test_rfinited_obs s).2 ∧
      (test_rfinited s = true →
        (s.randomcoeff_additive.length : ℤ) = s.dim_feature_space ∧
          (s.randomcoeff_multiplicative.length : ℤ) = s.dim_feature_space ∧
          ∀ r ∈ s.randomcoeff_multiplicative,
            (r.length : ℤ) = s.cur_dim_input_space) := by
  obtain ⟨hrows, hrect⟩ := h
  refine ⟨?_, ?_, ?_, coeff_inv_init rs s ⟨hrows, hrect⟩,
    coeff_inv_setcoeffs add mult dimf dimi s, ?_, ⟨hrows, hrect⟩,
    ⟨hrows, hrect⟩, ⟨hrows, hrect⟩, ⟨hrows, hrect⟩, ⟨hrows, hrect⟩, ?_⟩
  · unfold set_kernelwidth
    by_cases hw : w ≤ 0
    · rw [if_pos hw]; exact ⟨hrows, hrect⟩
    · rw [if_neg hw]; exact ⟨hrows, hrect⟩
  · unfold set_dim_input_space
    by_cases hd : d1 ≤ 0
    · rw [if_pos hd]; exact ⟨hrows, hrect⟩
    · rw [if_neg hd]; exact ⟨hrows, hrect⟩
  · unfold set_dim_feature_space
    by_cases hd : d2 ≤ 0
    · rw [if_pos hd]; exact ⟨hrows, hrect⟩
    · rw [if_neg hd]; exact ⟨hrows, hrect⟩
  · rw [apply_matrix_state]
    exact coeff_inv_init rs s ⟨hrows, hrect⟩
  · intro hr
    obtain ⟨hf, hc, _, hlen⟩ := (test_rfinited_eq_true_iff s).1 hr
    refine ⟨hlen, by omega, ?_⟩
    intro r hrmem
    have := hrect r hrmem
    omega

/-- Witness for C9: the invariant instantiated on the concrete Ready state,
with the Ready-state shape consequences evaluated there. -/
theorem C9_shape_invariant_witness :
    coeff_inv (set_kernelwidth 2 sC1).2 ∧
      (sC1.randomcoeff_additive.length : ℤ) = sC1.dim_feature_space := by
  have h := C9_shape_invariant sC1 rsZ 2 3 3 2 2 [] [] [] coeff_inv_sC1
  exact ⟨h.1, (h.2.2.2.2.2.2.2.2.2.2.2 (by rfl)).1⟩

end RFGP
